import Mathlib

/-!
Shallow embedding of `mileagecalc.py`, an IRS mileage-reimbursement
calculator that queries the Google Directions API.

Modelling conventions:
* JSON responses are modelled by the structures `Leg`, `Route`,
  `DirectionsJson`; a JSON key that may be absent becomes an `Option`
  field, while a key read with `dict.get(k, [])` (absence conflated with
  the empty list by the source itself) becomes a plain `List` field.
* `sys.exit(...)` (and uncaught exceptions such as `KeyError` /
  `IndexError` on `directions_json["routes"][0]`) is modelled by `none`
  in an `Option` result.
* Python `str.strip` / `str.lower` become `pyStrip` / `pyLower`,
  character-list implementations of whitespace stripping and ASCII
  lowercasing (core `String.trim` / `String.toLower` compute the same
  strings but are defined by well-founded recursion, which the kernel
  cannot evaluate).
* The interactive input stream is a `List String` of the lines the user
  types; running out of lines models EOF (which `safe_input` turns into
  an exit).
* Python `float` arithmetic in the unit conversion is modelled by exact
  rational arithmetic over `ℚ`.
* The Python `dict` of query parameters is modelled by an association
  list `List (String × String)` in insertion order.
-/

namespace Mileagecalc

/-- Constant `IRS_BUSINESS_RATE = 0.70` (dollars per mile). -/
def IRS_BUSINESS_RATE : ℚ := 0.70

/-- One leg of a route: `leg.get("distance", {}).get("value")`, `none`
when either the `distance` object or its `value` field is missing. -/
structure Leg where
  distance : Option Int
deriving DecidableEq, Repr

/-- One route of the response: the optional `waypoint_order` index list
and the legs (`route.get("legs", [])`). -/
structure Route where
  waypoint_order : Option (List Int)
  legs : List Leg
deriving DecidableEq, Repr

/-- A parsed Directions API response body: its top-level `status` string
(if present) and `routes` list (`directions_json.get("routes", [])`). -/
structure DirectionsJson where
  status : Option String
  routes : List Route
deriving DecidableEq, Repr

/-- Model of `get_api_key`: reads `GOOGLE_MAPS_API_KEY` from the environment
(modelled as a partial map from variable names to values) and exits
(`none`) when the variable is unset or empty (`if not api_key`). -/
def get_api_key (env : String → Option String) : Option String :=
  match env "GOOGLE_MAPS_API_KEY" with
  | none => none
  | some api_key => if api_key = "" then none else some api_key

/-- Model of `build_directions_params`: the query-parameter dictionary, in
insertion order.  `if waypoints:` is Python truthiness, i.e. the list is
non-empty. -/
def build_directions_params (origin destination : String)
    (waypoints : List String) (api_key : String) : List (String × String) :=
  [("origin", origin), ("destination", destination),
   ("mode", "driving"), ("key", api_key)] ++
  (if waypoints.isEmpty then []
   else [("waypoints", "optimize:true|" ++ String.intercalate "|" waypoints)])

/-- Model of `get_directions`, after the HTTP exchange: given the response status
code and parsed body, exit (`none`) unless the code is 200 and the
body's `status` field equals `"OK"`, and otherwise return the body. -/
def get_directions (status_code : Int) (data : DirectionsJson) :
    Option DirectionsJson :=
  if status_code ≠ 200 then none
  else if data.status ≠ some "OK" then none
  else some data

/-- The `for leg in legs` loop of `extract_total_distance_meters`:
accumulate `total_meters`, exiting (`none`) on a missing distance value. -/
def sumLegs : List Leg → Int → Option Int
  | [], total_meters => some total_meters
  | leg :: rest, total_meters =>
    match leg.distance with
    | none => none
    | some dist_value => sumLegs rest (total_meters + dist_value)

/-- Model of `extract_total_distance_meters`: sum `distance.value` over the legs
of the first route, exiting (`none`) when there is no route, no leg, or
a leg without a distance value. -/
def extract_total_distance_meters (directions_json : DirectionsJson) :
    Option Int :=
  match directions_json.routes with
  | [] => none
  | route :: _ =>
    match route.legs with
    | [] => none
    | legs => sumLegs legs 0

/-- Model of `meters_to_miles`: `meters / 1609.344`. -/
def meters_to_miles (meters : ℚ) : ℚ :=
  meters / 1609.344

/-- The reimbursement computed in `main`:
`total_miles * IRS_BUSINESS_RATE` where `total_miles = meters_to_miles total_meters`. -/
def reimbursement (total_meters : ℚ) : ℚ :=
  meters_to_miles total_meters * IRS_BUSINESS_RATE

/-- One iteration of the `for idx in ordered_indices` loop of
`get_optimized_order`: append `waypoints[idx]` to `ordered` when
`0 <= idx < len(waypoints)`, otherwise leave `ordered` unchanged. -/
def orderStep (waypoints : List String) (ordered : List String)
    (idx : Int) : List String :=
  if 0 ≤ idx ∧ idx < (waypoints.length : Int) then
    ordered ++ [waypoints.getD idx.toNat ""]
  else
    ordered

/-- Model of `get_optimized_order`: `directions_json["routes"][0]` (an exception,
modelled `none`, when there is no route), then `[origin]`, the remapped
waypoints when `"waypoint_order" in route and waypoints`, and finally
`destination`. -/
def get_optimized_order (directions_json : DirectionsJson)
    (origin destination : String) (waypoints : List String) :
    Option (List String) :=
  match directions_json.routes with
  | [] => none
  | route :: _ =>
    let ordered := [origin]
    let ordered :=
      match route.waypoint_order with
      | some ordered_indices =>
        if waypoints.isEmpty then ordered
        else ordered_indices.foldl (orderStep waypoints) ordered
      | none => ordered
    some (ordered ++ [destination])

/-- State-passing form of `get_optimized_order`'s loop: the Python local
variables `(ordered, waypoints)` are threaded explicitly through each
iteration, so that non-mutation of `waypoints` is a statement rather
than a typing convention.  Each iteration reads `waypoints` and extends
`ordered` exactly as the loop body does. -/
def orderStepState (st : List String × List String) (idx : Int) :
    List String × List String :=
  (orderStep st.2 st.1 idx, st.2)

/-- Model of `get_optimized_order` in state-passing form: returns the result
list together with the final value of the `waypoints` variable. -/
def get_optimized_order_state (directions_json : DirectionsJson)
    (origin destination : String) (waypoints : List String) :
    Option (List String) × List String :=
  match directions_json.routes with
  | [] => (none, waypoints)
  | route :: _ =>
    let st := ([origin], waypoints)
    let st :=
      match route.waypoint_order with
      | some ordered_indices =>
        if st.2.isEmpty then st
        else ordered_indices.foldl orderStepState st
      | none => st
    (some (st.1 ++ [destination]), st.2)

/-- Python `str.lower`: lowercase every character. -/
def pyLower (s : String) : String :=
  ⟨s.data.map Char.toLower⟩

/-- Python `str.strip`: drop whitespace from both ends. -/
def pyStrip (s : String) : String :=
  ⟨((s.data.dropWhile Char.isWhitespace).reverse.dropWhile
      Char.isWhitespace).reverse⟩

/-- Cancel keywords accepted by `prompt_for_addresses`:
`{"q", "quit", "exit"}`. -/
def cancelWords : List String := ["q", "quit", "exit"]

/-- Origin loop of `prompt_for_addresses`: read lines until a non-empty
(stripped) origin is entered; a cancel keyword exits (`none`), and an
exhausted input stream models EOF (`safe_input` exits, `none`).
Returns the origin together with the unconsumed input lines. -/
def promptOrigin : List String → Option (String × List String)
  | [] => none
  | line :: rest =>
    let origin := pyStrip line
    if pyLower origin ∈ cancelWords then none
    else if origin = "" then promptOrigin rest
    else some (origin, rest)

/-- Stop-collection loops of `prompt_for_addresses`: the inner loop
appends each non-empty stripped line to `stops` and breaks on a blank
line or `done`; the outer loop restarts the collection (with an empty
`stops`) when no stop was entered.  A cancel keyword or EOF exits
(`none`). -/
def promptStops : List String → List String → Option (List String)
  | [], _ => none
  | line :: rest, stops =>
    let stop := pyStrip line
    let lower := pyLower stop
    if lower ∈ cancelWords then none
    else if lower = "" ∨ lower = "done" then
      if stops = [] then promptStops rest []
      else some stops
    else promptStops rest (stops ++ [stop])

/-- Model of `prompt_for_addresses`, over the list of lines the user
types: gather the origin, then the stops, then split the stops into
destination and waypoints (`stops[0]` / `[]` for a single stop,
`stops[-1]` / `stops[:-1]` otherwise). -/
def prompt_for_addresses (input : List String) :
    Option (String × String × List String) :=
  match promptOrigin input with
  | none => none
  | some (origin, rest) =>
    match promptStops rest [] with
    | none => none
    | some stops =>
      if stops.length = 1 then
        some (origin, stops.headD "", [])
      else
        some (origin, stops.getLastD "", stops.dropLast)

/-! Theorems. -/

/-- The comprehension `[W[i] for i in P if 0 <= i < len(W)]` of the spec, as a
`filterMap` over the index list. -/
def remap (w : List String) (P : List Int) : List String :=
  P.filterMap fun i => if 0 ≤ i then w[i.toNat]? else none

theorem foldl_orderStep (w : List String) (P : List Int) :
    ∀ acc : List String, P.foldl (orderStep w) acc = acc ++ remap w P := by
  induction P with
  | nil => intro acc; simp [remap]
  | cons i P ih =>
    intro acc
    rw [List.foldl_cons, ih]
    unfold remap
    rw [List.filterMap_cons]
    by_cases h0 : 0 ≤ i
    · by_cases hlt : i < (w.length : Int)
      · have hn : i.toNat < w.length := by omega
        have hg : w[i.toNat]? = some (w.getD i.toNat "") := by
          rw [List.getElem?_eq_getElem hn, List.getD_eq_getElem?_getD,
            List.getElem?_eq_getElem hn, Option.getD_some]
        simp only [orderStep, if_pos (And.intro h0 hlt), if_pos h0, hg]
        simp [remap]
      · have hn : w.length ≤ i.toNat := by omega
        have hg : w[i.toNat]? = none := List.getElem?_eq_none hn
        have hcond : ¬(0 ≤ i ∧ i < (w.length : Int)) := fun hc => hlt hc.2
        simp only [orderStep, if_neg hcond, if_pos h0, hg]
    · have hcond : ¬(0 ≤ i ∧ i < (w.length : Int)) := fun hc => h0 hc.1
      simp only [orderStep, if_neg hcond, if_neg h0]

/-- C1: with a non-empty waypoint list `W` and a first route carrying a
`waypoint_order` list `P`, `get_optimized_order` returns exactly
`[origin] ++ [W[i] for i in P if 0 <= i < len(W)] ++ [destination]`:
out-of-range indices are skipped, unused indices are dropped, and
duplicate in-range indices yield repeated waypoints, with no rejection. -/
theorem get_optimized_order_remaps (j : DirectionsJson)
    (origin destination : String) (w : List String)
    (route : Route) (rs : List Route) (P : List Int)
    (hr : j.routes = route :: rs) (hP : route.waypoint_order = some P)
    (hw : w ≠ []) :
    get_optimized_order j origin destination w =
      some (origin :: (remap w P ++ [destination])) := by
  unfold get_optimized_order
  rw [hr]
  simp only [hP]
  rw [if_neg (by simpa [List.isEmpty_iff] using hw)]
  rw [foldl_orderStep]
  simp

/-- Witness for C1: waypoints `["a","b","c"]` and
`waypoint_order = [2, 0, 0, -1, 5]` give `["o","c","a","a","d"]`: index 2
then 0 twice (a duplicate), with `-1` and `5` silently skipped and index
1 (`"b"`) silently dropped. -/
theorem get_optimized_order_remaps_witness :
    get_optimized_order ⟨some "OK", [⟨some [2, 0, 0, -1, 5], []⟩]⟩
        "o" "d" ["a", "b", "c"] = some ["o", "c", "a", "a", "d"] := by
  have h := get_optimized_order_remaps
    ⟨some "OK", [⟨some [2, 0, 0, -1, 5], []⟩]⟩ "o" "d" ["a", "b", "c"]
    ⟨some [2, 0, 0, -1, 5], []⟩ [] [2, 0, 0, -1, 5] rfl rfl (by decide)
  exact h.trans (by decide)

theorem endpoints_aux (origin destination : String) (mid l : List String)
    (h : l = origin :: (mid ++ [destination])) :
    l.head? = some origin ∧ l.getLast? = some destination ∧ 2 ≤ l.length := by
  subst h
  refine ⟨rfl, ?_, by simp⟩
  rw [← List.cons_append, List.getLast?_concat]

/-- C9: when the first route has no `waypoint_order` key, or the waypoint
list is empty, `get_optimized_order` returns exactly
`[origin, destination]`; and every returned list starts with the origin,
ends with the destination, and has length at least 2. -/
theorem get_optimized_order_endpoints (j : DirectionsJson)
    (origin destination : String) (w : List String) :
    (∀ route rs, j.routes = route :: rs →
        route.waypoint_order = none ∨ w = [] →
        get_optimized_order j origin destination w =
          some [origin, destination]) ∧
    (∀ l, get_optimized_order j origin destination w = some l →
        l.head? = some origin ∧ l.getLast? = some destination ∧
          2 ≤ l.length) := by
  constructor
  · intro route rs hr hcond
    unfold get_optimized_order
    rw [hr]
    rcases hcond with h | h
    · simp [h]
    · subst h
      cases hwo : route.waypoint_order <;> simp [hwo]
  · intro l hl
    unfold get_optimized_order at hl
    cases hr : j.routes with
    | nil => rw [hr] at hl; exact absurd hl (by simp)
    | cons route rs =>
      rw [hr] at hl
      cases hwo : route.waypoint_order with
      | none =>
        simp only [hwo] at hl
        exact endpoints_aux origin destination [] l
          (by simpa using hl.symm)
      | some P =>
        simp only [hwo] at hl
        by_cases hw : w.isEmpty
        · rw [if_pos hw] at hl
          exact endpoints_aux origin destination [] l
            (by simpa using hl.symm)
        · rw [if_neg hw, foldl_orderStep] at hl
          exact endpoints_aux origin destination (remap w P) l
            (by simpa using hl.symm)

/-- Witness for C9: a route without `waypoint_order` reports only
`[origin, destination]`, omitting the waypoint. -/
theorem get_optimized_order_endpoints_witness :
    get_optimized_order ⟨some "OK", [⟨none, []⟩]⟩ "o" "d" ["w1"] =
      some ["o", "d"] :=
  (get_optimized_order_endpoints ⟨some "OK", [⟨none, []⟩]⟩ "o" "d"
    ["w1"]).1 ⟨none, []⟩ [] rfl (Or.inl rfl)

theorem foldl_orderStepState (P : List Int) :
    ∀ (acc w : List String),
    P.foldl orderStepState (acc, w) = (P.foldl (orderStep w) acc, w) := by
  induction P with
  | nil => intro acc w; rfl
  | cons i P ih => intro acc w; rw [List.foldl_cons, List.foldl_cons]; exact ih _ w

/-- C8: `get_optimized_order` is pure and deterministic.  In the
state-passing embedding, where the loop threads the pair
`(ordered, waypoints)` of Python locals, the result equals the pure
function of the four arguments and the final `waypoints` state equals
the initial one: the output depends on nothing but the arguments, and
the input waypoint list is not mutated. -/
theorem get_optimized_order_pure (j : DirectionsJson)
    (origin destination : String) (w : List String) :
    get_optimized_order_state j origin destination w =
      (get_optimized_order j origin destination w, w) := by
  unfold get_optimized_order_state get_optimized_order
  cases hr : j.routes with
  | nil => rfl
  | cons route rs =>
    cases hwo : route.waypoint_order with
    | none => simp [hwo]
    | some P =>
      by_cases hw : w.isEmpty
      · simp [hwo, hw]
      · simp [hwo, hw, foldl_orderStepState]

theorem sumLegs_sum (legs : List Leg) :
    ∀ acc : Int, (∀ leg ∈ legs, leg.distance ≠ none) →
    sumLegs legs acc = some (acc + (legs.filterMap Leg.distance).sum) := by
  induction legs with
  | nil => intro acc _; simp [sumLegs]
  | cons leg rest ih =>
    intro acc hall
    cases hd : leg.distance with
    | none => exact absurd hd (hall leg (by simp))
    | some v =>
      simp only [sumLegs, hd]
      rw [ih (acc + v) (fun g hg => hall g (List.mem_cons_of_mem _ hg))]
      simp [List.filterMap_cons, hd, add_assoc]

/-- C2: on a response whose first route has a non-empty leg list in
which every leg carries a distance value,
`extract_total_distance_meters` returns the sum of the `distance.value`
fields over the legs of the first route; later routes (`rs`) are
ignored. -/
theorem extract_total_distance_sum (j : DirectionsJson) (route : Route)
    (rs : List Route) (hr : j.routes = route :: rs)
    (hlegs : route.legs ≠ [])
    (hall : ∀ leg ∈ route.legs, leg.distance ≠ none) :
    extract_total_distance_meters j =
      some (route.legs.filterMap Leg.distance).sum := by
  obtain ⟨st, rts⟩ := j
  obtain ⟨wo, legs⟩ := route
  replace hr : rts = ⟨wo, legs⟩ :: rs := hr
  subst hr
  cases legs with
  | nil => exact absurd rfl hlegs
  | cons leg rest =>
    show sumLegs (leg :: rest) 0 =
      some (List.filterMap Leg.distance (leg :: rest)).sum
    rw [sumLegs_sum (leg :: rest) 0 hall]
    simp

/-- Witness for C2: legs of 100 and 250 meters in the first route sum to
350; the 999-meter leg of the second route is ignored. -/
theorem extract_total_distance_sum_witness :
    extract_total_distance_meters
      ⟨some "OK", [⟨none, [⟨some 100⟩, ⟨some 250⟩]⟩, ⟨none, [⟨some 999⟩]⟩]⟩ =
      some 350 := by
  have h := extract_total_distance_sum
    ⟨some "OK", [⟨none, [⟨some 100⟩, ⟨some 250⟩]⟩, ⟨none, [⟨some 999⟩]⟩]⟩
    ⟨none, [⟨some 100⟩, ⟨some 250⟩]⟩ [⟨none, [⟨some 999⟩]⟩]
    rfl (by decide) (by decide)
  exact h.trans (by decide)

/-- C3: for non-negative total meters `m`, the mileage is `m / 1609.344`
and the reimbursement is `(m / 1609.344) * 0.70`, the mileage times the
fixed constant `IRS_BUSINESS_RATE = 0.70`, with no other rate input. -/
theorem reimbursement_formula (m : ℚ) (hm : 0 ≤ m) :
    meters_to_miles m = m / 1609.344 ∧
    reimbursement m = m / 1609.344 * (70 / 100) ∧
    IRS_BUSINESS_RATE = 70 / 100 := by
  refine ⟨rfl, ?_, by norm_num [IRS_BUSINESS_RATE]⟩
  unfold reimbursement meters_to_miles IRS_BUSINESS_RATE
  norm_num

/-- Witness for C3: 3218.688 meters is exactly 2 miles, reimbursed at
2 × 0.70 = 1.40 dollars. -/
theorem reimbursement_formula_witness :
    meters_to_miles 3218.688 = 2 ∧ reimbursement 3218.688 = 1.40 := by
  have h := reimbursement_formula 3218.688 (by norm_num)
  exact ⟨h.1.trans (by norm_num), h.2.1.trans (by norm_num)⟩

/-- C4: `get_directions` returns the response exactly when the HTTP
status code is 200 and the body's `status` field is `"OK"`; in every
other case it exits (`none`), with no retry, fallback or caching (the
model is a pure function of the single exchange). -/
theorem get_directions_ok_iff (status_code : Int) (data : DirectionsJson) :
    (get_directions status_code data = some data ↔
      status_code = 200 ∧ data.status = some "OK") ∧
    (¬(status_code = 200 ∧ data.status = some "OK") →
      get_directions status_code data = none) := by
  unfold get_directions
  constructor
  · constructor
    · intro h
      split_ifs at h with h1 h2
      exact ⟨not_not.mp h1, not_not.mp h2⟩
    · rintro ⟨h1, h2⟩
      rw [if_neg (by simp [h1]), if_neg (by simp [h2])]
  · intro h
    split_ifs with h1 h2
    · rfl
    · rfl
    · exact absurd ⟨not_not.mp h1, not_not.mp h2⟩ h

/-- Witness for C4: status 200 with `"OK"` passes the body through;
HTTP 404, or status `"ZERO_RESULTS"` under HTTP 200, exits. -/
theorem get_directions_ok_iff_witness :
    get_directions 200 ⟨some "OK", []⟩ = some ⟨some "OK", []⟩ ∧
    get_directions 404 ⟨some "OK", []⟩ = none ∧
    get_directions 200 ⟨some "ZERO_RESULTS", []⟩ = none :=
  ⟨(get_directions_ok_iff 200 ⟨some "OK", []⟩).1.mpr ⟨rfl, rfl⟩,
   (get_directions_ok_iff 404 ⟨some "OK", []⟩).2 (by decide),
   (get_directions_ok_iff 200 ⟨some "ZERO_RESULTS", []⟩).2 (by decide)⟩

/-- C6: with a non-empty waypoint list, the parameter dictionary carries
a `waypoints` entry whose value is `"optimize:true|"` followed by the
waypoint addresses joined with `'|'`. -/
theorem build_directions_params_waypoints (origin destination : String)
    (waypoints : List String) (api_key : String) (hw : waypoints ≠ []) :
    ("waypoints", "optimize:true|" ++ String.intercalate "|" waypoints) ∈
      build_directions_params origin destination waypoints api_key := by
  unfold build_directions_params
  rw [if_neg (by simpa [List.isEmpty_iff] using hw)]
  simp

/-- Witness for C6: waypoints `["a", "b"]` produce the entry
`("waypoints", "optimize:true|a|b")`. -/
theorem build_directions_params_waypoints_witness :
    ("waypoints", "optimize:true|a|b") ∈
      build_directions_params "o" "d" ["a", "b"] "k" := by
  have h := build_directions_params_waypoints "o" "d" ["a", "b"] "k"
    (by decide)
  exact h

/-- C10: the parameter dictionary's keys are always exactly `origin`,
`destination`, `mode`, `key`, plus `waypoints` exactly when the waypoint
list is non-empty, in that order; the `mode` entry is the constant
`"driving"`. -/
theorem build_directions_params_keys (origin destination : String)
    (waypoints : List String) (api_key : String) :
    (build_directions_params origin destination waypoints api_key).map
        Prod.fst =
      ["origin", "destination", "mode", "key"] ++
        (if waypoints.isEmpty then [] else ["waypoints"]) ∧
    ("mode", "driving") ∈
      build_directions_params origin destination waypoints api_key := by
  unfold build_directions_params
  by_cases hw : waypoints.isEmpty <;> simp [hw]

/-- C7: `get_api_key` returns `k` exactly when the environment maps
`GOOGLE_MAPS_API_KEY` to a non-empty `k` (otherwise it exits), and its
result depends on no environment variable other than
`GOOGLE_MAPS_API_KEY`. -/
theorem get_api_key_spec (env : String → Option String) :
    (∀ k, get_api_key env = some k ↔
      env "GOOGLE_MAPS_API_KEY" = some k ∧ k ≠ "") ∧
    (∀ env₂ : String → Option String,
      env₂ "GOOGLE_MAPS_API_KEY" = env "GOOGLE_MAPS_API_KEY" →
      get_api_key env₂ = get_api_key env) := by
  constructor
  · intro k
    unfold get_api_key
    cases he : env "GOOGLE_MAPS_API_KEY" with
    | none => simp
    | some v =>
      show (if v = "" then none else some v) = some k ↔
        some v = some k ∧ k ≠ ""
      by_cases hv : v = ""
      · subst hv
        simp only [if_pos rfl]
        constructor
        · intro h; exact absurd h (by simp)
        · rintro ⟨h1, h2⟩
          exact absurd (Option.some.inj h1).symm h2
      · rw [if_neg hv]
        constructor
        · intro h
          obtain rfl := Option.some.inj h
          exact ⟨rfl, hv⟩
        · rintro ⟨h1, _⟩
          rw [Option.some.inj h1]
  · intro env₂ h
    unfold get_api_key
    rw [h]

/-- Witness for C7: an environment holding only
`GOOGLE_MAPS_API_KEY = "KEY123"` yields the key. -/
theorem get_api_key_spec_witness :
    get_api_key
      (fun v => if v = "GOOGLE_MAPS_API_KEY" then some "KEY123" else none) =
      some "KEY123" :=
  ((get_api_key_spec
    (fun v => if v = "GOOGLE_MAPS_API_KEY" then some "KEY123" else none)).1
    "KEY123").mpr ⟨rfl, by decide⟩

theorem promptOrigin_ne_empty :
    ∀ {input : List String} {origin : String} {rest : List String},
    promptOrigin input = some (origin, rest) → origin ≠ "" := by
  intro input
  induction input with
  | nil => intro o r h; exact absurd h (by simp [promptOrigin])
  | cons line rest ih =>
    intro o r h
    simp only [promptOrigin] at h
    split_ifs at h with h1 h2
    · exact ih h
    · obtain ⟨rfl, rfl⟩ := Prod.mk.injEq .. ▸ Option.some.inj h
      exact h2

theorem promptStops_ne_nil :
    ∀ (input acc stops : List String),
    promptStops input acc = some stops → stops ≠ [] := by
  intro input
  induction input with
  | nil => intro acc stops h; exact absurd h (by simp [promptStops])
  | cons line rest ih =>
    intro acc stops h
    simp only [promptStops] at h
    split_ifs at h with h1 h2 h3
    · exact ih [] stops h
    · obtain rfl := Option.some.inj h
      exact h3
    · exact ih (acc ++ [pyStrip line]) stops h

theorem promptStops_mem_ne_empty :
    ∀ (input acc stops : List String),
    (∀ s ∈ acc, s ≠ "") → promptStops input acc = some stops →
    ∀ s ∈ stops, s ≠ "" := by
  intro input
  induction input with
  | nil => intro acc stops _ h; exact absurd h (by simp [promptStops])
  | cons line rest ih =>
    intro acc stops hacc h
    simp only [promptStops] at h
    split_ifs at h with h1 h2 h3
    · exact ih [] stops (by simp) h
    · obtain rfl := Option.some.inj h
      exact hacc
    · refine ih (acc ++ [pyStrip line]) stops ?_ h
      intro s hs
      rcases List.mem_append.mp hs with hs | hs
      · exact hacc s hs
      · obtain rfl := List.mem_singleton.mp hs
        intro h0
        exact h2 (Or.inl (by rw [h0]; rfl))

theorem getLastD_mem (l : List String) (hl : l ≠ []) :
    l.getLastD "" ∈ l := by
  rw [List.getLastD_eq_getLast?, List.getLast?_eq_getLast l hl,
    Option.getD_some]
  exact List.getLast_mem hl

/-- C5: whenever `prompt_for_addresses` returns, the origin and the
destination are non-empty strings, and the user entered at least one
stop; with a single entered stop the waypoint list is empty and the stop
is the destination, and with `n ≥ 2` stops the destination is the last
stop and the waypoints are the first `n - 1` stops. -/
theorem prompt_for_addresses_spec (input : List String)
    (origin destination : String) (waypoints : List String)
    (h : prompt_for_addresses input = some (origin, destination, waypoints)) :
    origin ≠ "" ∧ destination ≠ "" ∧
    ∃ rest stops, promptOrigin input = some (origin, rest) ∧
      promptStops rest [] = some stops ∧ stops ≠ [] ∧
      (stops.length = 1 → destination = stops.headD "" ∧ waypoints = []) ∧
      (2 ≤ stops.length →
        destination = stops.getLastD "" ∧ waypoints = stops.dropLast) := by
  unfold prompt_for_addresses at h
  cases ho : promptOrigin input with
  | none => rw [ho] at h; exact absurd h (by simp)
  | some p =>
    obtain ⟨o, rest⟩ := p
    rw [ho] at h
    replace h : (match promptStops rest [] with
      | none => none
      | some stops =>
        if stops.length = 1 then some (o, stops.headD "", ([] : List String))
        else some (o, stops.getLastD "", stops.dropLast)) =
        some (origin, destination, waypoints) := h
    cases hs : promptStops rest [] with
    | none => rw [hs] at h; exact absurd h (by simp)
    | some stops =>
      rw [hs] at h
      replace h : (if stops.length = 1 then
          some (o, stops.headD "", ([] : List String))
        else some (o, stops.getLastD "", stops.dropLast)) =
        some (origin, destination, waypoints) := h
      have hne : stops ≠ [] := promptStops_ne_nil rest [] stops hs
      have hmem : ∀ s ∈ stops, s ≠ "" :=
        promptStops_mem_ne_empty rest [] stops (by simp) hs
      by_cases h1 : stops.length = 1
      · rw [if_pos h1] at h
        simp only [Option.some.injEq, Prod.mk.injEq] at h
        obtain ⟨rfl, rfl, rfl⟩ := h
        obtain ⟨s, rfl⟩ : ∃ s, stops = [s] := List.length_eq_one.mp h1
        exact ⟨promptOrigin_ne_empty ho, hmem s (by simp), rest, [s], rfl,
          hs, hne, fun _ => ⟨rfl, rfl⟩, fun h2 => absurd h1 (by omega)⟩
      · rw [if_neg h1] at h
        simp only [Option.some.injEq, Prod.mk.injEq] at h
        obtain ⟨rfl, rfl, rfl⟩ := h
        have h2 : 2 ≤ stops.length := by
          cases stops with
          | nil => exact absurd rfl hne
          | cons a t =>
            simp only [List.length_cons] at h1 ⊢
            omega
        exact ⟨promptOrigin_ne_empty ho,
          hmem _ (getLastD_mem stops hne), rest, stops, rfl, hs, hne,
          fun hl1 => absurd hl1 h1, fun _ => ⟨rfl, rfl⟩⟩

/-- Witness for C5: the session typing `"  Home  "`, two stops and a
final `"done"` returns origin `"Home"`, destination `"Stop B"` and
waypoint list `["Stop A"]`, all non-empty. -/
theorem prompt_for_addresses_spec_witness :
    "Home" ≠ "" ∧ "Stop B" ≠ "" ∧
    ∃ rest stops,
      promptOrigin ["  Home  ", "Stop A", "Stop B", "done"] =
        some ("Home", rest) ∧
      promptStops rest [] = some stops ∧ stops ≠ [] ∧
      (stops.length = 1 →
        "Stop B" = stops.headD "" ∧ (["Stop A"] : List String) = []) ∧
      (2 ≤ stops.length →
        "Stop B" = stops.getLastD "" ∧ ["Stop A"] = stops.dropLast) :=
  prompt_for_addresses_spec ["  Home  ", "Stop A", "Stop B", "done"]
    "Home" "Stop B" ["Stop A"] rfl

end Mileagecalc
